import Mathlib

/-!
Verification of the node2api extraction/emission pipeline.

The development embeds, in Lean, the parameter-binding extraction of the
NestJS parser (`src/parsers/nestjs.ts`), the URL joining and request-option
construction of the axios client-stub writer (`src/writers/axios.ts`), and
the component/response schema resolution of the OpenAPI writer, and proves
the spec's claims about them.
-/

namespace Node2API

/-! ## Parser model (`src/parsers/nestjs.ts`)

A decorator argument is inspected only through
`getArguments()[0]?.asKind(SyntaxKind.StringLiteral)?.getLiteralText()`,
so an argument expression is modelled as either a string literal or any
other expression. -/

/-- A decorator-argument expression as inspected by the parser: a string
literal (with its literal text) or any other expression shape. -/
inductive DecoArg where
  | strLit (s : String)
  | otherArg
deriving DecidableEq, Repr

/-- One formal parameter of a handler method, carrying, for each of the
three recognized parameter decorators (`@Body`, `@Query`, `@Param`), the
decorator's argument list when the decorator is present
(`p.getDecorator(name)`), and `none` when it is absent. -/
structure MethodParam where
  name : String
  bodyDeco : Option (List DecoArg)
  queryDeco : Option (List DecoArg)
  paramDeco : Option (List DecoArg)
deriving DecidableEq, Repr

/-- `getArguments()[0]?.asKind(SyntaxKind.StringLiteral)?.getLiteralText()`:
the literal text of the first argument when it is a string literal. -/
def firstStringLiteralText (args : List DecoArg) : Option String :=
  match args.head? with
  | some (.strLit s) => some s
  | _ => none

/-- JavaScript truthiness test `!property` applied to the optional literal
text: `undefined` and the empty string are falsy. -/
def propertyFalsy : Option String → Bool
  | none => true
  | some s => s == ""

/-- The result of binding extraction for one source: the source returns
either a single `ParameterDeclaration` (a Whole binding) or a list of
`PartialParameterDeclaration`s (`{ property, parameter }`). -/
inductive Binding where
  | whole (p : MethodParam)
  | partials (l : List (String × MethodParam))
deriving DecidableEq, Repr

/-- The shared loop body of `getData`/`getQuery`: walk the decorated
`(parameter, decorator-arguments)` pairs in order; at the first pair whose
property text is falsy return that parameter immediately (discarding the
partials accumulated so far), otherwise accumulate `(property, parameter)`
partials in order. -/
def collectPairs : List (MethodParam × List DecoArg) →
    MethodParam ⊕ List (String × MethodParam)
  | [] => .inr []
  | (p, args) :: rest =>
    match firstStringLiteralText args with
    | none => .inl p
    | some s =>
      if s == "" then .inl p
      else
        match collectPairs rest with
        | .inl w => .inl w
        | .inr parts => .inr ((s, p) :: parts)

/-- The shared tail of `getData`/`getQuery`: `undefined` when no parameter
carries the decorator, otherwise a Whole or the accumulated partials
(guarded by the final `if (partials.length)`). -/
def wholeOrPartials (pairs : List (MethodParam × List DecoArg)) : Option Binding :=
  if pairs.isEmpty then none
  else
    match collectPairs pairs with
    | .inl w => some (.whole w)
    | .inr parts => if parts.isEmpty then none else some (.partials parts)

/-- `getData`: pairs = parameters that carry a `@Body` decorator (in
parameter-list order); `undefined` when there are none; otherwise the first
field-name-less parameter as a Whole binding, or the accumulated partials
when every pair carries a field name. -/
def getData (ps : List MethodParam) : Option Binding :=
  wholeOrPartials (ps.filterMap fun p => p.bodyDeco.map fun args => (p, args))

/-- `getQuery`: identical to `getData` but keyed on the `@Query` decorator. -/
def getQuery (ps : List MethodParam) : Option Binding :=
  wholeOrPartials (ps.filterMap fun p => p.queryDeco.map fun args => (p, args))

/-- The loop body of `getParams`: a pair whose property text is falsy throws
`` `@Param()` without property name is not supported ``; otherwise the
`(property, parameter)` partials accumulate in order. -/
def collectParamPairs : List (MethodParam × List DecoArg) →
    Except String (List (String × MethodParam))
  | [] => .ok []
  | (p, args) :: rest =>
    match firstStringLiteralText args with
    | none => .error "`@Param()` without property name is not supported"
    | some s =>
      if s == "" then .error "`@Param()` without property name is not supported"
      else (collectParamPairs rest).map fun parts => (s, p) :: parts

/-- `getParams`: pairs = parameters decorated with `@Param`; `undefined`
when there are none; a thrown error surfaces as `.error`; otherwise the
accumulated partials (guarded by the final `if (partials.length)`). -/
def paramsOrThrow (pairs : List (MethodParam × List DecoArg)) :
    Except String (Option (List (String × MethodParam))) :=
  if pairs.isEmpty then .ok none
  else (collectParamPairs pairs).map fun parts =>
    if parts.isEmpty then none else some parts

/-- `getParams` itself: the `paramsOrThrow` tail applied to the parameters
decorated with `@Param`. -/
def getParams (ps : List MethodParam) :
    Except String (Option (List (String × MethodParam))) :=
  paramsOrThrow (ps.filterMap fun p => p.paramDeco.map fun args => (p, args))

/-- A parameter triggers the Whole-binding short-circuit of `getData`:
it carries `@Body` and the decorator yields no usable field name
(no argument, a non-string argument, or an empty string literal). -/
def bodyWholeTrigger (p : MethodParam) : Bool :=
  match p.bodyDeco with
  | none => false
  | some args => propertyFalsy (firstStringLiteralText args)

/-- Like `bodyWholeTrigger`, for the `@Query` decorator. -/
def queryWholeTrigger (p : MethodParam) : Bool :=
  match p.queryDeco with
  | none => false
  | some args => propertyFalsy (firstStringLiteralText args)

/-- A parameter carries `@Param` without a usable field name (the shape on
which `getParams` throws). -/
def paramNoFieldName (p : MethodParam) : Bool :=
  match p.paramDeco with
  | none => false
  | some args => propertyFalsy (firstStringLiteralText args)

/-! ### Supporting lemmas for the parser claims -/

/-- If the filter of decorated pairs that trigger the Whole short-circuit
has `pr` as its first element, the collection loop returns `pr`'s
parameter as the Whole result. -/
theorem collectPairs_first_falsy
    (pairs : List (MethodParam × List DecoArg)) (pr : MethodParam × List DecoArg)
    (h : (pairs.filter fun q => propertyFalsy (firstStringLiteralText q.2)).head? =
        some pr) :
    collectPairs pairs = .inl pr.1 := by
  induction pairs with
  | nil => simp at h
  | cons q rest ih =>
    rcases q with ⟨p, args⟩
    by_cases hf : propertyFalsy (firstStringLiteralText args)
    · rw [List.filter_cons_of_pos (by simpa using hf)] at h
      simp only [List.head?_cons, Option.some.injEq] at h
      subst h
      unfold collectPairs
      unfold propertyFalsy at hf
      cases he : firstStringLiteralText args with
      | none => simp
      | some s =>
        rw [he] at hf
        have hs : s = "" := by simpa using hf
        simp only [he]
        simp [hs]
    · rw [List.filter_cons_of_neg (by simpa using hf)] at h
      have hrest := ih h
      unfold collectPairs
      unfold propertyFalsy at hf
      cases he : firstStringLiteralText args with
      | none => rw [he] at hf; simp at hf
      | some s =>
        rw [he] at hf
        have hs : ¬s = "" := by simpa using hf
        simp only [he, hrest]
        simp [hs]

/-- Relating the parameter-level filter to the decorated-pair-level filter,
for the `@Body` decorator: if the first Whole-triggering parameter is `p`,
then the first Whole-triggering decorated pair is `(p, args)` for `p`'s
`@Body` arguments. -/
theorem body_filter_head (ps : List MethodParam) (p : MethodParam)
    (h : (ps.filter bodyWholeTrigger).head? = some p) :
    ∃ args, p.bodyDeco = some args ∧
      (((ps.filterMap fun q => q.bodyDeco.map fun a => (q, a)).filter
        fun q => propertyFalsy (firstStringLiteralText q.2)).head? = some (p, args)) := by
  induction ps with
  | nil => simp at h
  | cons q rest ih =>
    cases hd : q.bodyDeco with
    | none =>
      have ht : bodyWholeTrigger q = false := by unfold bodyWholeTrigger; rw [hd]
      rw [List.filter_cons_of_neg (by simp [ht])] at h
      obtain ⟨args, ha, hh⟩ := ih h
      refine ⟨args, ha, ?_⟩
      rwa [List.filterMap_cons, hd]
    | some args =>
      by_cases hf : propertyFalsy (firstStringLiteralText args)
      · have ht : bodyWholeTrigger q = true := by unfold bodyWholeTrigger; rw [hd]; exact hf
        rw [List.filter_cons_of_pos (by simp [ht])] at h
        simp only [List.head?_cons, Option.some.injEq] at h
        subst h
        refine ⟨args, hd, ?_⟩
        rw [List.filterMap_cons, hd]
        simp only [Option.map_some']
        rw [List.filter_cons_of_pos (by simpa using hf)]
        simp
      · have ht : bodyWholeTrigger q = false := by
          unfold bodyWholeTrigger; rw [hd]; simpa using hf
        rw [List.filter_cons_of_neg (by simp [ht])] at h
        obtain ⟨args', ha, hh⟩ := ih h
        refine ⟨args', ha, ?_⟩
        rw [List.filterMap_cons, hd]
        simp only [Option.map_some']
        rw [List.filter_cons_of_neg (by simpa using hf)]
        exact hh

/-- Companion of `body_filter_head` for the `@Query` decorator. -/
theorem query_filter_head (ps : List MethodParam) (p : MethodParam)
    (h : (ps.filter queryWholeTrigger).head? = some p) :
    ∃ args, p.queryDeco = some args ∧
      (((ps.filterMap fun q => q.queryDeco.map fun a => (q, a)).filter
        fun q => propertyFalsy (firstStringLiteralText q.2)).head? = some (p, args)) := by
  induction ps with
  | nil => simp at h
  | cons q rest ih =>
    cases hd : q.queryDeco with
    | none =>
      have ht : queryWholeTrigger q = false := by unfold queryWholeTrigger; rw [hd]
      rw [List.filter_cons_of_neg (by simp [ht])] at h
      obtain ⟨args, ha, hh⟩ := ih h
      refine ⟨args, ha, ?_⟩
      rwa [List.filterMap_cons, hd]
    | some args =>
      by_cases hf : propertyFalsy (firstStringLiteralText args)
      · have ht : queryWholeTrigger q = true := by unfold queryWholeTrigger; rw [hd]; exact hf
        rw [List.filter_cons_of_pos (by simp [ht])] at h
        simp only [List.head?_cons, Option.some.injEq] at h
        subst h
        refine ⟨args, hd, ?_⟩
        rw [List.filterMap_cons, hd]
        simp only [Option.map_some']
        rw [List.filter_cons_of_pos (by simpa using hf)]
        simp
      · have ht : queryWholeTrigger q = false := by
          unfold queryWholeTrigger; rw [hd]; simpa using hf
        rw [List.filter_cons_of_neg (by simp [ht])] at h
        obtain ⟨args', ha, hh⟩ := ih h
        refine ⟨args', ha, ?_⟩
        rw [List.filterMap_cons, hd]
        simp only [Option.map_some']
        rw [List.filter_cons_of_neg (by simpa using hf)]
        exact hh

/-- Bridging the parameter-level trigger to the decorated-pair level, for
`@Param`: some parameter lacks a usable field name iff some decorated pair
has falsy property text. -/
theorem exists_param_trigger_iff (ps : List MethodParam) :
    (∃ p ∈ ps, paramNoFieldName p = true) ↔
      ∃ pr ∈ (ps.filterMap fun q => q.paramDeco.map fun a => (q, a)),
        propertyFalsy (firstStringLiteralText pr.2) = true := by
  constructor
  · rintro ⟨p, hp, ht⟩
    unfold paramNoFieldName at ht
    cases hd : p.paramDeco with
    | none => rw [hd] at ht; simp at ht
    | some args =>
      rw [hd] at ht
      exact ⟨(p, args), List.mem_filterMap.mpr ⟨p, hp, by rw [hd]; rfl⟩, ht⟩
  · rintro ⟨⟨p, args⟩, hmem, ht⟩
    obtain ⟨q, hq, hf⟩ := List.mem_filterMap.mp hmem
    cases hd : q.paramDeco with
    | none => rw [hd] at hf; simp at hf
    | some a2 =>
      rw [hd] at hf
      simp only [Option.map_some', Option.some.injEq, Prod.mk.injEq] at hf
      obtain ⟨h1, h2⟩ := hf
      subst h1; subst h2
      exact ⟨q, hq, by simp [paramNoFieldName, hd, ht]⟩

/-- `collectParamPairs` fails iff some decorated pair has falsy property
text, and the only error value is the `@Param()` message. -/
theorem collectParamPairs_error_iff (pairs : List (MethodParam × List DecoArg)) :
    (∃ pr ∈ pairs, propertyFalsy (firstStringLiteralText pr.2) = true) ↔
      ∃ msg, collectParamPairs pairs = .error msg := by
  induction pairs with
  | nil => simp [collectParamPairs]
  | cons q rest ih =>
    rcases q with ⟨p, args⟩
    cases he : firstStringLiteralText args with
    | none =>
      have hstep : collectParamPairs ((p, args) :: rest) =
          .error "`@Param()` without property name is not supported" := by
        simp only [collectParamPairs]; rw [he]
      constructor
      · intro _; exact ⟨_, hstep⟩
      · intro _; exact ⟨(p, args), by simp, by simp [propertyFalsy, he]⟩
    | some s =>
      have hstep : collectParamPairs ((p, args) :: rest) =
          if s == "" then .error "`@Param()` without property name is not supported"
          else (collectParamPairs rest).map fun parts => (s, p) :: parts := by
        simp only [collectParamPairs]; rw [he]
      by_cases hs : s = ""
      · constructor
        · intro _
          exact ⟨"`@Param()` without property name is not supported",
            by rw [hstep]; simp [hs]⟩
        · intro _; exact ⟨(p, args), by simp, by simp [propertyFalsy, he, hs]⟩
      · have hmap : ∀ msg, ((collectParamPairs rest).map
            fun parts => (s, p) :: parts) = .error msg ↔
            collectParamPairs rest = .error msg := by
          intro msg; cases hcp : collectParamPairs rest <;> simp [Except.map]
        constructor
        · rintro ⟨pr, hpr, hft⟩
          rcases List.mem_cons.mp hpr with heq | hpr2
          · subst heq; simp [propertyFalsy, he, hs] at hft
          · obtain ⟨msg, hmsg⟩ := ih.mp ⟨pr, hpr2, hft⟩
            exact ⟨msg, by rw [hstep]; simp [hs, (hmap msg).mpr hmsg]⟩
        · rintro ⟨msg, hmsg⟩
          rw [hstep, if_neg (by simpa using hs)] at hmsg
          obtain ⟨pr, hpr, hft⟩ := ih.mpr ⟨msg, (hmap msg).mp hmsg⟩
          exact ⟨pr, List.mem_cons_of_mem _ hpr, hft⟩

/-! ### Claim theorems about the parser -/

/-- C1: for each of the body and query sources, if some parameter carries
the source's decorator without a string-literal field name, extraction
returns the first such parameter (in parameter-list order) as the single
Whole binding, discarding every Partial collected from earlier parameters;
no error is raised (`getData`/`getQuery` are total). -/
theorem claim_C1_whole_preempts_partials (ps : List MethodParam) :
    ((∃ p ∈ ps, bodyWholeTrigger p = true) →
      getData ps = ((ps.filter bodyWholeTrigger).head?).map Binding.whole) ∧
    ((∃ p ∈ ps, queryWholeTrigger p = true) →
      getQuery ps = ((ps.filter queryWholeTrigger).head?).map Binding.whole) := by
  constructor
  · intro hex
    cases hh : (ps.filter bodyWholeTrigger).head? with
    | none =>
      obtain ⟨p, hp, ht⟩ := hex
      have hmem : p ∈ ps.filter bodyWholeTrigger := List.mem_filter.mpr ⟨hp, ht⟩
      rw [List.head?_eq_none_iff] at hh
      rw [hh] at hmem
      simp at hmem
    | some p =>
      obtain ⟨args, _, hh2⟩ := body_filter_head ps p hh
      have hcp := collectPairs_first_falsy _ _ hh2
      have hne : (ps.filterMap fun q => q.bodyDeco.map fun a => (q, a)) ≠ [] := by
        intro h0; rw [h0] at hh2; simp at hh2
      unfold getData wholeOrPartials
      rw [if_neg (by simpa [List.isEmpty_iff] using hne), hcp]
      rfl
  · intro hex
    cases hh : (ps.filter queryWholeTrigger).head? with
    | none =>
      obtain ⟨p, hp, ht⟩ := hex
      have hmem : p ∈ ps.filter queryWholeTrigger := List.mem_filter.mpr ⟨hp, ht⟩
      rw [List.head?_eq_none_iff] at hh
      rw [hh] at hmem
      simp at hmem
    | some p =>
      obtain ⟨args, _, hh2⟩ := query_filter_head ps p hh
      have hcp := collectPairs_first_falsy _ _ hh2
      have hne : (ps.filterMap fun q => q.queryDeco.map fun a => (q, a)) ≠ [] := by
        intro h0; rw [h0] at hh2; simp at hh2
      unfold getQuery wholeOrPartials
      rw [if_neg (by simpa [List.isEmpty_iff] using hne), hcp]
      rfl

/-- A method parameter used to exercise the C1 theorem: `@Body('x')` plus a
field-name-less `@Query()`. -/
def c1ParamA : MethodParam :=
  { name := "a", bodyDeco := some [.strLit "x"], queryDeco := some [],
    paramDeco := none }

/-- A method parameter used to exercise the C1 theorem: a field-name-less
`@Body()` plus `@Query('q')`. -/
def c1ParamB : MethodParam :=
  { name := "b", bodyDeco := some [], queryDeco := some [.strLit "q"],
    paramDeco := none }

/-- Witness for C1 at the concrete parameter list `[c1ParamA, c1ParamB]`:
the body Whole short-circuits to `c1ParamB` (discarding the `"x"` Partial
from `c1ParamA`), and the query Whole short-circuits to `c1ParamA`. -/
theorem claim_C1_witness :
    getData [c1ParamA, c1ParamB] =
      ((([c1ParamA, c1ParamB]).filter bodyWholeTrigger).head?).map Binding.whole ∧
    getQuery [c1ParamA, c1ParamB] =
      ((([c1ParamA, c1ParamB]).filter queryWholeTrigger).head?).map Binding.whole :=
  ⟨(claim_C1_whole_preempts_partials [c1ParamA, c1ParamB]).1
      ⟨c1ParamB, by decide, by decide⟩,
    (claim_C1_whole_preempts_partials [c1ParamA, c1ParamB]).2
      ⟨c1ParamA, by decide, by decide⟩⟩

/-- C7: `getParams` raises a fatal error iff some parameter carries the
`@Param` decorator without a string-literal field name; when every
`@Param`-bound parameter carries a field name, extraction succeeds. -/
theorem claim_C7_param_error_iff (ps : List MethodParam) :
    (∃ p ∈ ps, paramNoFieldName p = true) ↔
      ∃ msg, getParams ps = .error msg := by
  rw [exists_param_trigger_iff]
  rw [collectParamPairs_error_iff]
  unfold getParams paramsOrThrow
  by_cases hie : (ps.filterMap fun q => q.paramDeco.map fun a => (q, a)).isEmpty
  · rw [if_pos hie]
    rw [List.isEmpty_iff] at hie
    simp [hie, collectParamPairs]
  · rw [if_neg hie]
    cases hcp : collectParamPairs
        (ps.filterMap fun q => q.paramDeco.map fun a => (q, a)) with
    | error e => simp [Except.map]
    | ok parts => simp [Except.map]

/-- C10: the extracted body, query and path bindings are each absent, a
single Whole parameter, or a non-empty Partial sequence; no successful
extraction produces an empty Partial list. -/
theorem claim_C10_no_empty_partials (ps : List MethodParam) :
    (getData ps = none ∨ (∃ p, getData ps = some (.whole p)) ∨
      ∃ l, l ≠ [] ∧ getData ps = some (.partials l)) ∧
    (getQuery ps = none ∨ (∃ p, getQuery ps = some (.whole p)) ∨
      ∃ l, l ≠ [] ∧ getQuery ps = some (.partials l)) ∧
    (∀ r, getParams ps = .ok r →
      r = none ∨ ∃ l, l ≠ [] ∧ r = some l) := by
  have hwp : ∀ pairs, wholeOrPartials pairs = none ∨
      (∃ p, wholeOrPartials pairs = some (.whole p)) ∨
      ∃ l, l ≠ [] ∧ wholeOrPartials pairs = some (.partials l) := by
    intro pairs
    unfold wholeOrPartials
    by_cases hie : pairs.isEmpty
    · rw [if_pos hie]; left; rfl
    · rw [if_neg hie]
      cases hcp : collectPairs pairs with
      | inl w => right; left; exact ⟨w, rfl⟩
      | inr parts =>
        by_cases hpe : parts.isEmpty
        · left
          show (if parts.isEmpty then none else some (Binding.partials parts)) = none
          rw [if_pos hpe]
        · right; right
          refine ⟨parts, by simpa [List.isEmpty_iff] using hpe, ?_⟩
          show (if parts.isEmpty then none else some (Binding.partials parts)) =
            some (Binding.partials parts)
          rw [if_neg hpe]
  refine ⟨hwp _, hwp _, ?_⟩
  · intro r hr
    unfold getParams paramsOrThrow at hr
    by_cases hie : (ps.filterMap fun q => q.paramDeco.map fun a => (q, a)).isEmpty
    · rw [if_pos hie] at hr
      left; cases hr; rfl
    · rw [if_neg hie] at hr
      cases hcp : collectParamPairs
          (ps.filterMap fun q => q.paramDeco.map fun a => (q, a)) with
      | error e => rw [hcp] at hr; simp [Except.map] at hr
      | ok parts =>
        rw [hcp] at hr
        simp only [Except.map, Except.ok.injEq] at hr
        by_cases hpe : parts.isEmpty
        · left; rw [← hr, if_pos hpe]
        · right
          exact ⟨parts, by simpa [List.isEmpty_iff] using hpe,
            by rw [← hr, if_neg hpe]⟩

/-- A method parameter used to exercise the C10 theorem: `@Param('id')`. -/
def c10Param : MethodParam :=
  { name := "id", bodyDeco := none, queryDeco := none,
    paramDeco := some [.strLit "id"] }

/-- Witness for C10 at the concrete parameter list `[c10Param]`, whose path
extraction succeeds with the non-empty Partial list `[("id", c10Param)]`. -/
theorem claim_C10_witness :
    (some [("id", c10Param)] : Option (List (String × MethodParam))) = none ∨
      ∃ l, l ≠ [] ∧
        (some [("id", c10Param)] : Option (List (String × MethodParam))) = some l :=
  (claim_C10_no_empty_partials [c10Param]).2.2 (some [("id", c10Param)]) rfl

/-! ## URL joining (`joinPaths` in `src/writers/axios.ts`)

`joinPaths(...args)` is
`['', ...args, ''].join('/').replace(/\x7b2,\x7d-slash-run/g, '/')` followed by
`.replace(/(.+)\/$/, '$1')`.  The model works on character lists.  In the
final regex, `.` matches any character except a line terminator
(`\n`, `\r`, U+2028, U+2029), so the trailing slash is removed exactly when
the string ends in `'/'` preceded by at least one non-terminator character. -/

/-- JavaScript line terminators, the characters `.` does not match. -/
def isLineTerminator (c : Char) : Bool :=
  c = '\n' || c = '\r' || c = Char.ofNat 0x2028 || c = Char.ofNat 0x2029

/-- `Array.prototype.join('/')`: elements interleaved with single slashes. -/
def jsJoin : List (List Char) → List Char
  | [] => []
  | [x] => x
  | x :: y :: rest => x ++ '/' :: jsJoin (y :: rest)

/-- `.replace(/\x7b2,\x7d-slash-run/g, '/')`: every maximal run of two or
more slashes collapses to a single slash. -/
def collapseSlashes : List Char → List Char
  | [] => []
  | [c] => [c]
  | a :: b :: rest =>
    if a = '/' && b = '/' then collapseSlashes (b :: rest)
    else a :: collapseSlashes (b :: rest)

/-- `.replace(/(.+)\/$/, '$1')`: drop a final `'/'` when it is preceded by a
character that `.` can match (a non-line-terminator). -/
def stripTrailingSlash : List Char → List Char
  | [] => []
  | [c] => [c]
  | [a, b] => if b = '/' && !isLineTerminator a then [a] else [a, b]
  | a :: b :: c :: rest => a :: stripTrailingSlash (b :: c :: rest)

/-- `joinPaths(...args)` of the axios writer. -/
def joinPaths (args : List String) : String :=
  String.mk (stripTrailingSlash (collapseSlashes
    (jsJoin (([""] ++ args ++ [""]).map String.toList))))

/-! ### Supporting lemmas for C2 -/

/-- The collapse step keeps the first character. -/
theorem collapseSlashes_head (x : Char) (xs : List Char) :
    ∃ t, collapseSlashes (x :: xs) = x :: t := by
  induction xs generalizing x with
  | nil => exact ⟨[], rfl⟩
  | cons b rest ih =>
    unfold collapseSlashes
    by_cases h : x = '/' && b = '/'
    · rw [if_pos h]
      obtain ⟨t, ht⟩ := ih b
      have hx : x = b := by
        simp only [Bool.and_eq_true, decide_eq_true_eq] at h
        rw [h.1, h.2]
      rw [ht, hx]
      exact ⟨t, rfl⟩
    · rw [if_neg h]
      exact ⟨collapseSlashes (b :: rest), rfl⟩

/-- The collapse step keeps the last element. -/
theorem collapseSlashes_getLast? (l : List Char) :
    (collapseSlashes l).getLast? = l.getLast? := by
  induction l with
  | nil => rfl
  | cons a tail ih =>
    cases tail with
    | nil => rfl
    | cons b rest =>
      unfold collapseSlashes
      by_cases h : a = '/' && b = '/'
      · rw [if_pos h, ih]
        simp
      · rw [if_neg h]
        rcases collapseSlashes_head b rest with ⟨t, ht⟩
        rw [ht, List.getLast?_cons_cons, ← ht, ih, List.getLast?_cons_cons]

/-- The collapse result never contains two adjacent slashes. -/
theorem collapseSlashes_chain (l : List Char) :
    (collapseSlashes l).Chain' (fun a b => ¬(a = '/' ∧ b = '/')) := by
  induction l with
  | nil => simp [collapseSlashes]
  | cons a tail ih =>
    cases tail with
    | nil => simp [collapseSlashes]
    | cons b rest =>
      unfold collapseSlashes
      by_cases h : a = '/' && b = '/'
      · rw [if_pos h]; exact ih
      · rw [if_neg h]
        rcases collapseSlashes_head b rest with ⟨t, ht⟩
        rw [ht]
        rw [ht] at ih
        refine List.chain'_cons.mpr ⟨?_, ih⟩
        intro hab
        exact h (by simp [hab.1, hab.2])

/-- The collapse result is a sublist of its input (it only deletes
characters). -/
theorem collapseSlashes_sublist (l : List Char) :
    (collapseSlashes l).Sublist l := by
  induction l with
  | nil => simp [collapseSlashes]
  | cons a tail ih =>
    cases tail with
    | nil => simp [collapseSlashes]
    | cons b rest =>
      unfold collapseSlashes
      by_cases h : a = '/' && b = '/'
      · rw [if_pos h]
        exact ih.cons a
      · rw [if_neg h]
        exact ih.cons₂ a

/-- The strip step keeps the first character. -/
theorem stripTrailingSlash_head (x : Char) (xs : List Char) :
    ∃ t, stripTrailingSlash (x :: xs) = x :: t := by
  cases xs with
  | nil => exact ⟨[], rfl⟩
  | cons b rest =>
    cases rest with
    | nil =>
      unfold stripTrailingSlash
      by_cases h : b = '/' && !isLineTerminator x
      · rw [if_pos h]; exact ⟨[], rfl⟩
      · rw [if_neg h]; exact ⟨[b], rfl⟩
    | cons c rest2 => exact ⟨stripTrailingSlash (b :: c :: rest2), rfl⟩

/-- The strip step is the identity or removes exactly the last character. -/
theorem stripTrailingSlash_eq_or_dropLast (l : List Char) :
    stripTrailingSlash l = l ∨ stripTrailingSlash l = l.dropLast := by
  induction l with
  | nil => left; rfl
  | cons a tail ih =>
    cases tail with
    | nil => left; rfl
    | cons b rest =>
      cases rest with
      | nil =>
        unfold stripTrailingSlash
        by_cases h : b = '/' && !isLineTerminator a
        · rw [if_pos h]; right; rfl
        · rw [if_neg h]; left; rfl
      | cons c rest2 =>
        have hstep : stripTrailingSlash (a :: b :: c :: rest2) =
            a :: stripTrailingSlash (b :: c :: rest2) := rfl
        rcases ih with h | h
        · left; rw [hstep, h]
        · right; rw [hstep, h]; rfl

/-- The strip step preserves the no-adjacent-slash invariant. -/
theorem stripTrailingSlash_chain (l : List Char)
    (h : l.Chain' (fun a b => ¬(a = '/' ∧ b = '/'))) :
    (stripTrailingSlash l).Chain' (fun a b => ¬(a = '/' ∧ b = '/')) := by
  induction l with
  | nil => simpa [stripTrailingSlash] using h
  | cons a tail ih =>
    cases tail with
    | nil => simpa [stripTrailingSlash] using h
    | cons b rest =>
      cases rest with
      | nil =>
        unfold stripTrailingSlash
        by_cases hc : b = '/' && !isLineTerminator a
        · rw [if_pos hc]; simp
        · rw [if_neg hc]; exact h
      | cons c rest2 =>
        have hstep : stripTrailingSlash (a :: b :: c :: rest2) =
            a :: stripTrailingSlash (b :: c :: rest2) := rfl
        rw [hstep]
        rw [List.chain'_cons] at h
        rcases stripTrailingSlash_head b (c :: rest2) with ⟨t, ht⟩
        rw [ht]
        refine List.chain'_cons.mpr ⟨h.1, ?_⟩
        rw [← ht]
        exact ih h.2

/-- The last element of a join whose final fragment is empty is a slash. -/
theorem jsJoin_getLast_append_nil (l : List (List Char)) (hl : l ≠ []) :
    (jsJoin (l ++ [[]])).getLast? = some '/' := by
  induction l with
  | nil => exact absurd rfl hl
  | cons x tail ih =>
    cases tail with
    | nil => simp [jsJoin]
    | cons y rest =>
      have hstep : jsJoin ((x :: y :: rest) ++ [[]]) =
          x ++ '/' :: jsJoin ((y :: rest) ++ [[]]) := rfl
      rw [hstep]
      have hne : jsJoin ((y :: rest) ++ [[]]) ≠ [] := by
        cases rest with
        | nil => simp [jsJoin]
        | cons z rest2 =>
          have : jsJoin ((y :: z :: rest2) ++ [[]]) =
              y ++ '/' :: jsJoin ((z :: rest2) ++ [[]]) := rfl
          rw [this]
          simp
      rw [List.getLast?_append_cons]
      rcases List.exists_cons_of_ne_nil hne with ⟨w, ws, hw⟩
      rw [hw, List.getLast?_cons_cons, ← hw]
      exact ih (by simp)

/-- Joined fragments without line terminators contain no line terminator
(the inserted separators are slashes). -/
theorem jsJoin_no_terminator (ls : List (List Char))
    (h : ∀ l ∈ ls, ∀ c ∈ l, isLineTerminator c = false) :
    ∀ c ∈ jsJoin ls, isLineTerminator c = false := by
  induction ls with
  | nil => simp [jsJoin]
  | cons x tail ih =>
    cases tail with
    | nil =>
      intro c hc
      exact h x (by simp) c hc
    | cons y rest =>
      intro c hc
      have hstep : jsJoin (x :: y :: rest) = x ++ '/' :: jsJoin (y :: rest) := rfl
      rw [hstep] at hc
      rcases List.mem_append.mp hc with hx | hcons
      · exact h x (by simp) c hx
      · rcases List.mem_cons.mp hcons with rfl | hrest
        · decide
        · exact ih (fun l hl => h l (List.mem_cons_of_mem _ hl)) c hrest

/-- A cons onto a list of length at least two passes through the strip
step unchanged. -/
theorem stripTrailingSlash_cons_of_two (x : Char) (l : List Char)
    (h : 2 ≤ l.length) :
    stripTrailingSlash (x :: l) = x :: stripTrailingSlash l := by
  match l, h with
  | b :: c :: rest, _ => rfl

/-- The strip step on a list ending in `[a, '/']`: removes the slash iff
`a` is not a line terminator. -/
theorem stripTrailingSlash_last_two (init : List Char) (a : Char) :
    stripTrailingSlash (init ++ [a, '/']) =
      if isLineTerminator a then init ++ [a, '/'] else init ++ [a] := by
  induction init with
  | nil =>
    by_cases hterm : isLineTerminator a <;>
      simp [stripTrailingSlash, hterm]
  | cons x init2 ih =>
    have hlen : 2 ≤ (init2 ++ [a, '/']).length := by simp
    rw [List.cons_append, stripTrailingSlash_cons_of_two x _ hlen, ih]
    by_cases hterm : isLineTerminator a <;> simp [hterm]

/-- A list of length at least two decomposes as `init ++ [a, b]`. -/
theorem exists_last_two (m : List Char) (h2 : 2 ≤ m.length) :
    ∃ init a b, m = init ++ [a, b] := by
  induction m with
  | nil => simp at h2
  | cons x tail ih =>
    cases tail with
    | nil => simp at h2
    | cons y rest =>
      cases rest with
      | nil => exact ⟨[], x, y, rfl⟩
      | cons z rest2 =>
        obtain ⟨init, a, b, hi⟩ := ih (by simp)
        exact ⟨x :: init, a, b, by rw [List.cons_append, ← hi]⟩

/-- C2 (corrected): the three concrete joins from the spec hold, every
join result starts with a slash and contains no two adjacent slashes, and
— provided no fragment contains a line-terminator character — the result
ends in a slash only when it is exactly the root `"/"`. -/
theorem claim_C2_joinPaths :
    joinPaths ["users", ":id"] = "/users/:id" ∧
    joinPaths ["/users/", "/:id/"] = "/users/:id" ∧
    joinPaths [""] = "/" ∧
    ∀ args : List String,
      (∃ t, (joinPaths args).toList = '/' :: t) ∧
      (joinPaths args).toList.Chain' (fun a b => ¬(a = '/' ∧ b = '/')) ∧
      ((∀ s ∈ args, ∀ c ∈ s.toList, isLineTerminator c = false) →
        (joinPaths args).toList.getLast? = some '/' → joinPaths args = "/") := by
  refine ⟨by decide, by decide, by decide, ?_⟩
  intro args
  have hjoin : jsJoin (([""] ++ args ++ [""]).map String.toList) =
      '/' :: jsJoin ((args ++ [""]).map String.toList) := by
    have : ([""] ++ args ++ [""]).map String.toList =
        [] :: (args ++ [""]).map String.toList := by simp
    rw [this]
    rcases hm : (args ++ [""]).map String.toList with _ | ⟨y, rest⟩
    · simp at hm
    · rfl
  have hhead : ∃ t, collapseSlashes
      (jsJoin (([""] ++ args ++ [""]).map String.toList)) = '/' :: t := by
    rw [hjoin]
    exact collapseSlashes_head _ _
  obtain ⟨t0, ht0⟩ := hhead
  have htolist : (joinPaths args).toList =
      stripTrailingSlash (collapseSlashes
        (jsJoin (([""] ++ args ++ [""]).map String.toList))) := rfl
  refine ⟨?_, ?_, ?_⟩
  · rw [htolist, ht0]
    exact stripTrailingSlash_head '/' t0
  · rw [htolist]
    exact stripTrailingSlash_chain _ (collapseSlashes_chain _)
  · intro hnoterm hlast
    set j := jsJoin (([""] ++ args ++ [""]).map String.toList) with hj
    set m := collapseSlashes j with hm
    have hmlast : m.getLast? = some '/' := by
      rw [hm, collapseSlashes_getLast?, hj]
      have : ([""] ++ args ++ [""]).map String.toList =
          (([""] ++ args).map String.toList) ++ [[]] := by simp
      rw [this]
      exact jsJoin_getLast_append_nil _ (by simp)
    have hmnoterm : ∀ c ∈ m, isLineTerminator c = false := by
      intro c hc
      have hcj : c ∈ j := (collapseSlashes_sublist j).mem hc
      refine jsJoin_no_terminator _ ?_ c hcj
      intro l hl c2 hc2
      rcases List.mem_map.mp hl with ⟨s, hs, rfl⟩
      rcases List.mem_append.mp hs with hs2 | hs2
      · rcases List.mem_append.mp hs2 with hs3 | hs3
        · simp at hs3
          rw [hs3] at hc2
          simp at hc2
        · exact hnoterm s hs3 c2 hc2
      · simp at hs2
        rw [hs2] at hc2
        simp at hc2
    have hmchain : m.Chain' (fun a b => ¬(a = '/' ∧ b = '/')) := by
      rw [hm]; exact collapseSlashes_chain j
    rcases ht0eq : t0 with _ | ⟨c1, t1⟩
    · -- m = ['/'], so the result is the root
      have hmone : m = ['/'] := by rw [ht0, ht0eq]
      show String.mk (stripTrailingSlash m) = "/"
      rw [hmone]
      decide
    · -- m has at least two characters: the strip fires and removes the
      -- final slash, contradicting the assumption
      exfalso
      have hm2 : 2 ≤ m.length := by
        rw [ht0, ht0eq]; simp
      obtain ⟨init, a, b, hdec⟩ := exists_last_two m hm2
      have hb : b = '/' := by
        have := hmlast
        rw [hdec] at this
        rw [List.getLast?_append_cons] at this
        simp at this
        exact this
      subst hb
      have ha : a ≠ '/' := by
        intro ha
        subst ha
        rw [hdec] at hmchain
        rcases List.chain'_append.mp hmchain with ⟨_, hpair, _⟩
        rw [List.chain'_cons] at hpair
        exact hpair.1 ⟨rfl, rfl⟩
      have haterm : isLineTerminator a = false := by
        apply hmnoterm
        rw [hdec]
        simp
      rw [htolist] at hlast
      show False
      rw [hdec, stripTrailingSlash_last_two, haterm] at hlast
      simp only [Bool.false_eq_true, if_false, List.getLast?_append_cons] at hlast
      simp at hlast
      exact ha hlast

/-- Counterexample to C2 as stated: with the fragment `"a\n"` (a line
terminator before the final slash position), the join result ends in a
slash yet is not the root `"/"` — the trailing-slash regex `(.+)\/$`
cannot match across the newline. -/
theorem claim_C2_counterexample :
    (joinPaths ["a\n"]).toList.getLast? = some '/' ∧ joinPaths ["a\n"] ≠ "/" := by
  decide

/-- Witness for C2 at concrete inputs: the empty argument list joins to the
root (its join ends in a slash, and the no-terminator hypothesis is
discharged trivially), and joining `["x"]` starts with a slash. -/
theorem claim_C2_witness :
    joinPaths [] = "/" ∧ (∃ t, (joinPaths ["x"]).toList = '/' :: t) :=
  ⟨(claim_C2_joinPaths.2.2.2 []).2.2 (by decide) (by decide),
    (claim_C2_joinPaths.2.2.2 ["x"]).1⟩

/-! ## Client-stub request options (`src/writers/axios.ts`)

The writer consumes a `Parser.Request` only through parameter and property
names, so the model keys bindings by name: a query/body binding is either a
Whole parameter name or a list of `(property, parameterName)` partials. -/

/-- A query or body binding as the axios writer sees it:
`ParameterDeclaration | PartialParameterDeclaration[]`. -/
inductive QBinding where
  | whole (name : String)
  | partials (l : List (String × String))
deriving DecidableEq, Repr

/-- The fields of `Parser.Request` read by `createRequestOptions` and
`createUrlStringExpression`: the lower-cased verb, the path partials
(`property`, parameter name), and the query and body bindings. -/
structure WRequest where
  method : String
  params : Option (List (String × String))
  query : Option QBinding
  data : Option QBinding
deriving DecidableEq, Repr

/-- A produced request-option value: an identifier passed by reference or
an object literal mapping property names to identifiers. -/
inductive JsExpr where
  | ident (name : String)
  | objLit (props : List (String × String))
deriving DecidableEq, Repr

/-- The emitted `url` expression: a plain string literal or a template
with a head text and `(identifier, following-literal-text)` spans. -/
inductive UrlExpr where
  | lit (s : String)
  | template (head : String) (spans : List (String × String))
deriving DecidableEq, Repr

/-- JavaScript `Map.prototype.set` / object-property assignment on an
insertion-ordered association list: an existing key keeps its position and
takes the new value, a new key is appended. -/
def jsRecordSet {α : Type} (m : List (String × α)) (k : String) (v : α) :
    List (String × α) :=
  if m.any fun p => p.1 == k then
    m.map fun p => if p.1 == k then (k, v) else p
  else m ++ [(k, v)]

/-- Loading a pair list into a fresh `Map` (the loop in
`createMergedObjectExpression`). -/
def jsRecordOfList {α : Type} (l : List (String × α)) : List (String × α) :=
  l.foldl (fun m kv => jsRecordSet m kv.1 kv.2) []

/-- `createMergedObjectExpression`: a lone parameter becomes an identifier
by reference; a Partial array is loaded into a `Map` keyed by `property`
and emitted as an object literal of `property: parameterName` assignments. -/
def createMergedObjectExpression : QBinding → JsExpr
  | .whole n => .ident n
  | .partials l => .objLit (jsRecordOfList l)

/-- `url.split(/(?=:)/g)` worker: a chunk ends before each `':'`. -/
def splitSpansGo (acc : List Char) : List Char → List (List Char)
  | [] => [acc.reverse]
  | c :: rest =>
    if c = ':' then acc.reverse :: splitSpansGo [c] rest
    else splitSpansGo (c :: acc) rest

/-- `url.split(/(?=:)/g)`: split before every `':'` (a zero-width match at
position 0 is skipped, so the first chunk is never empty unless the whole
string is empty). -/
def splitBeforeColon (l : List Char) : List (List Char) :=
  match l with
  | [] => [[]]
  | c :: rest => splitSpansGo [c] rest

/-- `span.split(/\/(.+)/)` destructured as `[exp, literal]`: the regex
matches at the first `'/'` followed by a character `.` can match (a
non-line-terminator); the capture greedily takes the run of
non-terminators after that slash.  When no position matches, the whole
span is `exp` and `literal` is `undefined`. -/
def splitSlashCapture : List Char → List Char × Option (List Char)
  | [] => ([], none)
  | c :: rest =>
    if c = '/' then
      match rest with
      | [] => ([c], none)
      | d :: _ =>
        if isLineTerminator d then
          let pr := splitSlashCapture rest
          (c :: pr.1, pr.2)
        else ([], some (rest.takeWhile fun x => !isLineTerminator x))
    else
      let pr := splitSlashCapture rest
      (c :: pr.1, pr.2)

/-- One template span of `createUrlStringExpression`: the substitution
identifier is `exp.slice(1)`; the following text is
`'/' + literal` for a middle span (JavaScript stringifies an `undefined`
literal as `"undefined"`), and `literal ? '/' + literal : ''` for the
final span. -/
def mkSpan (span : List Char) (isLast : Bool) : String × String :=
  let pr := splitSlashCapture span
  let idName := String.mk (pr.1.drop 1)
  let text :=
    if !isLast then
      "/" ++ (match pr.2 with
              | some lit => String.mk lit
              | none => "undefined")
    else
      match pr.2 with
      | some lit => if lit.isEmpty then "" else "/" ++ String.mk lit
      | none => ""
  (idName, text)

/-- `createUrlStringExpression`: a plain string literal when
`request.params` is `undefined`, otherwise a template expression built
from the chunks of `url.split(/(?=:)/g)` — head first, then one span per
remaining chunk, the last span taking the tail form. -/
def createUrlStringExpression (request : WRequest) (url : String) : UrlExpr :=
  match request.params with
  | none => .lit url
  | some _ =>
    match splitBeforeColon url.toList with
    | [] => .template "" []
    | head :: spans =>
      .template (String.mk head)
        (spans.enum.map fun iv => mkSpan iv.2 (!decide (iv.1 < spans.length - 1)))

/-- One property of the emitted axios options object literal. -/
inductive OptionProp where
  | methodProp (verb : String)
  | urlProp (u : UrlExpr)
  | paramsProp (e : JsExpr)
  | dataProp (e : JsExpr)
  | spreadProp (name : String)
deriving DecidableEq, Repr

/-- `createRequestOptions`: `method` and `url` always; `params` iff
`request.query` is truthy; `data` iff `request.data` is truthy; a spread
of the overrides identifier iff the `overwrite` name is truthy (a
non-empty string). -/
def createRequestOptions (request : WRequest) (url : String)
    (overwrite : Option String) : List OptionProp :=
  [.methodProp request.method, .urlProp (createUrlStringExpression request url)]
  ++ (match request.query with
      | some q => [.paramsProp (createMergedObjectExpression q)]
      | none => [])
  ++ (match request.data with
      | some d => [.dataProp (createMergedObjectExpression d)]
      | none => [])
  ++ (match overwrite with
      | some o => if o = "" then [] else [.spreadProp o]
      | none => [])

/-- The `params` property of an emitted options list, if present. -/
def findParamsProp (props : List OptionProp) : Option JsExpr :=
  props.findSome? fun p =>
    match p with
    | .paramsProp e => some e
    | _ => none

/-- The `data` property of an emitted options list, if present. -/
def findDataProp (props : List OptionProp) : Option JsExpr :=
  props.findSome? fun p =>
    match p with
    | .dataProp e => some e
    | _ => none

/-! ### Supporting lemmas for the writer claims -/

/-- Folding `jsRecordSet` over pairs with keys disjoint from the
accumulator and no duplicate keys appends the pairs unchanged. -/
theorem jsRecordSet_foldl {α : Type} (l : List (String × α)) :
    ∀ acc : List (String × α),
      (∀ p ∈ acc, ∀ q ∈ l, p.1 ≠ q.1) →
      (l.map Prod.fst).Nodup →
      l.foldl (fun m kv => jsRecordSet m kv.1 kv.2) acc = acc ++ l := by
  induction l with
  | nil => intro acc _ _; simp
  | cons kv rest ih =>
    intro acc hdisj hnodup
    rcases kv with ⟨k, v⟩
    have hset : jsRecordSet acc k v = acc ++ [(k, v)] := by
      unfold jsRecordSet
      rw [if_neg ?_]
      intro hany
      rw [List.any_eq_true] at hany
      obtain ⟨p, hp, hpk⟩ := hany
      exact hdisj p hp (k, v) (by simp) (by simpa using hpk)
    rw [List.foldl_cons]
    have hdisj2 : ∀ p ∈ acc ++ [(k, v)], ∀ q ∈ rest, p.1 ≠ q.1 := by
      intro p hp q hq
      rcases List.mem_append.mp hp with hp2 | hp2
      · exact hdisj p hp2 q (List.mem_cons_of_mem _ hq)
      · simp at hp2
        subst hp2
        simp only [List.map_cons, List.nodup_cons] at hnodup
        intro hk
        apply hnodup.1
        rw [show k = q.1 from hk]
        exact List.mem_map_of_mem Prod.fst hq
    have hnodup2 : (rest.map Prod.fst).Nodup := by
      simp only [List.map_cons, List.nodup_cons] at hnodup
      exact hnodup.2
    calc rest.foldl (fun m kv => jsRecordSet m kv.1 kv.2) (jsRecordSet acc k v)
        = rest.foldl (fun m kv => jsRecordSet m kv.1 kv.2) (acc ++ [(k, v)]) := by
          rw [hset]
      _ = (acc ++ [(k, v)]) ++ rest := ih _ hdisj2 hnodup2
      _ = acc ++ (k, v) :: rest := by simp

/-- A pair list with distinct keys loads into a `Map` unchanged. -/
theorem jsRecordOfList_eq_self {α : Type} (l : List (String × α))
    (h : (l.map Prod.fst).Nodup) : jsRecordOfList l = l := by
  have := jsRecordSet_foldl l [] (by simp) h
  simpa [jsRecordOfList] using this

/-- `findParamsProp` of the emitted options is exactly the merged query
expression, when the query binding is present. -/
theorem findParams_createRequestOptions (request : WRequest) (url : String)
    (overwrite : Option String) :
    findParamsProp (createRequestOptions request url overwrite) =
      request.query.map createMergedObjectExpression := by
  unfold createRequestOptions findParamsProp
  rcases request.query with _ | q <;> rcases request.data with _ | d <;>
    rcases overwrite with _ | o <;>
    simp [List.findSome?] <;>
    by_cases ho : o = "" <;> simp [ho, List.findSome?]

/-- `findDataProp` of the emitted options is exactly the merged body
expression, when the body binding is present. -/
theorem findData_createRequestOptions (request : WRequest) (url : String)
    (overwrite : Option String) :
    findDataProp (createRequestOptions request url overwrite) =
      request.data.map createMergedObjectExpression := by
  unfold createRequestOptions findDataProp
  rcases request.query with _ | q <;> rcases request.data with _ | d <;>
    rcases overwrite with _ | o <;>
    simp [List.findSome?] <;>
    by_cases ho : o = "" <;> simp [ho, List.findSome?]

/-- C3: in the emitted options, `params` is present iff the query binding
is present, as the Whole parameter's identifier by reference or an object
literal mapping each Partial's field name to its parameter's identifier
(given distinct field names); `data` obeys the same rule for the body. -/
theorem claim_C3_params_data_merge (request : WRequest) (url : String)
    (overwrite : Option String) :
    (findParamsProp (createRequestOptions request url overwrite) = none ↔
      request.query = none) ∧
    (∀ n, request.query = some (.whole n) →
      findParamsProp (createRequestOptions request url overwrite) =
        some (.ident n)) ∧
    (∀ l, request.query = some (.partials l) → (l.map Prod.fst).Nodup →
      findParamsProp (createRequestOptions request url overwrite) =
        some (.objLit l)) ∧
    (findDataProp (createRequestOptions request url overwrite) = none ↔
      request.data = none) ∧
    (∀ n, request.data = some (.whole n) →
      findDataProp (createRequestOptions request url overwrite) =
        some (.ident n)) ∧
    (∀ l, request.data = some (.partials l) → (l.map Prod.fst).Nodup →
      findDataProp (createRequestOptions request url overwrite) =
        some (.objLit l)) := by
  rw [findParams_createRequestOptions, findData_createRequestOptions]
  refine ⟨?_, ?_, ?_, ?_, ?_, ?_⟩
  · rcases request.query with _ | q <;> simp
  · intro n hq; rw [hq]; rfl
  · intro l hq hnodup
    rw [hq]
    show some (JsExpr.objLit (jsRecordOfList l)) = some (JsExpr.objLit l)
    rw [jsRecordOfList_eq_self l hnodup]
  · rcases request.data with _ | d <;> simp
  · intro n hd; rw [hd]; rfl
  · intro l hd hnodup
    rw [hd]
    show some (JsExpr.objLit (jsRecordOfList l)) = some (JsExpr.objLit l)
    rw [jsRecordOfList_eq_self l hnodup]

/-- A concrete request exercising the C3 theorem: two query partials and a
Whole body parameter. -/
def c3Request : WRequest :=
  { method := "post", params := none,
    query := some (.partials [("name", "n"), ("id", "i")]),
    data := some (.whole "body") }

/-- Witness for C3 at `c3Request`: the query partials re-assemble into the
object literal `{ name: n, id: i }` and the body Whole passes by
reference. -/
theorem claim_C3_witness :
    findParamsProp (createRequestOptions c3Request "/u" (some "options")) =
      some (.objLit [("name", "n"), ("id", "i")]) ∧
    findDataProp (createRequestOptions c3Request "/u" (some "options")) =
      some (.ident "body") :=
  ⟨(claim_C3_params_data_merge c3Request "/u" (some "options")).2.2.1
      [("name", "n"), ("id", "i")] rfl (by decide),
    (claim_C3_params_data_merge c3Request "/u" (some "options")).2.2.2.2.1
      "body" rfl⟩

/-- C9, evaluated at a URL template with two adjacent path placeholders:
`createUrlStringExpression` emits a substitution of the malformed
identifier `uid/` followed by the literal text `/undefined`, instead of a
substitution of `uid` followed by `/` — the span `":uid/"` has no character
after its slash, so `span.split(/\/(.+)/)` does not split it and the
middle-span text becomes `'/' + undefined`. -/
theorem claim_C9_adjacent_placeholders :
    createUrlStringExpression
      { method := "get", params := some [("uid", "uid"), ("pid", "pid")],
        query := none, data := none } "/users/:uid/:pid" =
      .template "/users/" [("uid/", "/undefined"), ("pid", "")] := by
  decide

/-- Sanity check of the template construction on a well-behaved URL: a
single trailing placeholder substitutes the correctly-named parameter. -/
theorem urlExpression_single_placeholder :
    createUrlStringExpression
      { method := "get", params := some [("id", "id")],
        query := none, data := none } "/users/:id/posts" =
      .template "/users/" [("id", "/posts")] := by
  decide

/-- Sanity check of the no-placeholder side: without path partials the url
is a plain string literal. -/
theorem urlExpression_no_params :
    createUrlStringExpression
      { method := "get", params := none, query := none, data := none }
      "/users" = .lit "/users" := by
  decide

/-! ## OpenAPI writer (the schema-document emitter)

Models of `resolveNodeSchema`, `resolveTypeSchema`, the component
resolvers for enums/interfaces/classes, and `resolveResponses`.  Schema
values are a tagged variant over the JSON shapes the writer produces. -/

/-- A produced OpenAPI schema value: `{type: t}`, the `Date` special case
`{type: 'string', format: 'date-time'}`, a `$ref`, `{type: 'array',
items}`, `anyOf`/`allOf` (members may be `undefined` when produced from
`resolveTypeSchema`), the bare `{type: 'object'}`, or the empty `\x7b\x7d`
placeholder. -/
inductive OASchema where
  | prim (t : String)
  | dateTime
  | refSchema (name : String)
  | arr (items : Option OASchema)
  | anyOf (members : List (Option OASchema))
  | allOfSchema (members : List (Option OASchema))
  | objEmpty
  | emptySchema

/-- `resolveRefType`: `Date` maps to a date-time string schema, every other
name to `$ref: '#/components/schemas/<name>'`. -/
def resolveRefType (typeName : String) : OASchema :=
  match typeName with
  | "Date" => .dateTime
  | _ => .refSchema typeName

/-- A type-annotation node as `resolveNodeSchema` dispatches on its
`SyntaxKind`: primitive keywords and literals, arrays, template literals,
unions, and type references (carrying the referenced identifier text, the
type-argument list, and the type-parameter names in scope). -/
inductive TNode where
  | numberKeyword
  | bigintKeyword
  | numericLiteral
  | stringKeyword
  | stringLiteral
  | booleanKeyword
  | trueKeyword
  | falseKeyword
  | arrayType (elem : TNode)
  | templateLiteralType
  | unionType (members : List TNode)
  | typeReference (ref : String) (args : List TNode) (scopeTypeParams : List String)
  | otherNode

mutual
/-- `resolveNodeSchema`: syntax-directed schema for a type-annotation
node.  A type reference without arguments resolves to `$ref` (or the
`Date` special case) unless the name is a type parameter in scope, which
degrades to the empty schema; a reference with arguments falls through the
generic TODO and returns the empty schema, as does any unknown node. -/
def resolveNodeSchema : TNode → OASchema
  | .numberKeyword => .prim "number"
  | .bigintKeyword => .prim "number"
  | .numericLiteral => .prim "number"
  | .stringKeyword => .prim "string"
  | .stringLiteral => .prim "string"
  | .booleanKeyword => .prim "boolean"
  | .trueKeyword => .prim "boolean"
  | .falseKeyword => .prim "boolean"
  | .arrayType elem => .arr (some (resolveNodeSchema elem))
  | .templateLiteralType => .prim "string"
  | .unionType ms => .anyOf (resolveNodeSchemaList ms)
  | .typeReference r args scope =>
    if args.isEmpty then
      if scope.contains r then .emptySchema else resolveRefType r
    else .emptySchema
  | .otherNode => .emptySchema

/-- `resolveNodeSchema` mapped over union members (all defined). -/
def resolveNodeSchemaList : List TNode → List (Option OASchema)
  | [] => []
  | t :: ts => some (resolveNodeSchema t) :: resolveNodeSchemaList ts
end

/-- A resolved type as `resolveTypeSchema` classifies it through the
`ts-morph` predicates, in the source's test order; each tag stands for the
first predicate that the type satisfies. -/
inductive Ty where
  | undefinedT
  | nullT
  | stringT
  | stringLitT
  | numberT
  | numberLitT
  | booleanT
  | booleanLitT
  | arrayT (elem : Ty)
  | classOrInterfaceT (text : String)
  | enumT (text : String)
  | unionT (members : List Ty)
  | intersectionT (members : List Ty)
  | objectT
  | otherT

mutual
/-- `resolveTypeSchema`: `undefined`/`null` yield no schema; primitives
(and their literal forms) yield the matching primitive; arrays recurse on
the element; class/interface/enum references become `$ref`s via
`resolveRefType`; unions/intersections recurse into `anyOf`/`allOf`; plain
objects yield `{type: 'object'}`; anything else yields the empty schema.
(The generic-target check between the union and intersection branches only
logs a diagnostic and does not return.) -/
def resolveTypeSchema : Ty → Option OASchema
  | .undefinedT => none
  | .nullT => none
  | .stringT => some (.prim "string")
  | .stringLitT => some (.prim "string")
  | .numberT => some (.prim "number")
  | .numberLitT => some (.prim "number")
  | .booleanT => some (.prim "boolean")
  | .booleanLitT => some (.prim "boolean")
  | .arrayT elem => some (.arr (resolveTypeSchema elem))
  | .classOrInterfaceT text => some (resolveRefType text)
  | .enumT text => some (resolveRefType text)
  | .unionT ms => some (.anyOf (resolveTypeSchemaList ms))
  | .intersectionT ms => some (.allOfSchema (resolveTypeSchemaList ms))
  | .objectT => some .objEmpty
  | .otherT => some .emptySchema

/-- `resolveTypeSchema` mapped over union/intersection members. -/
def resolveTypeSchemaList : List Ty → List (Option OASchema)
  | [] => []
  | t :: ts => resolveTypeSchema t :: resolveTypeSchemaList ts
end

/-! ### Component schemas (enums, interfaces, classes) -/

/-- The value of one enum member as `member.getValue()` reports it: a
string, a number, or `undefined` for an unresolvable computed member. -/
inductive EnumValue where
  | vstr (s : String)
  | vnum (n : Int)
  | vundef
deriving DecidableEq, Repr

/-- One enum member (name and resolved literal value). -/
structure EnumMember where
  name : String
  value : EnumValue
deriving DecidableEq, Repr

/-- An enum declaration as the component resolver reads it. -/
structure EnumDecl where
  name : String
  doc : Option String
  members : List EnumMember
deriving DecidableEq, Repr

/-- The schema produced for an enum component: a primitive `type`, the doc
text, and the ordered list of member values. -/
structure EnumSchema where
  type : String
  description : Option String
  enum : List EnumValue
deriving DecidableEq, Repr

/-- `resolveEnumComponent`: `values = members.map(getValue)`; the `type` is
`'string'` when `typeof values[0] === 'string'` and `'number'` otherwise
(also for an empty enum or an `undefined` first value); `enum` lists the
values in member order. -/
def resolveEnumComponent (e : EnumDecl) : EnumSchema :=
  let values := e.members.map EnumMember.value
  { type := match values.head? with
            | some (.vstr _) => "string"
            | _ => "number"
    description := e.doc
    enum := values }

/-- One declared property (name, doc text, type-annotation node) of an
interface or class. -/
structure PropDecl where
  name : String
  doc : Option String
  typeNode : TNode

/-- An interface declaration as the component resolver reads it:
`getExtends()` yields the list of extends-expression texts, and
`getProperties()` yields only the properties declared on the interface
itself (inherited members are not included by `ts-morph`). -/
structure InterfaceDecl where
  name : String
  doc : Option String
  extendsClauses : List String
  props : List PropDecl

/-- A class declaration as the component resolver reads it: an optional
`getExtends()` expression text, the `getImplements()` texts, and the
properties declared on the class itself. -/
structure ClassDecl where
  name : String
  doc : Option String
  extendsClause : Option String
  implementsClauses : List String
  props : List PropDecl

/-- One entry of an object schema's `properties` record: the spread of the
property's node schema plus the property's doc text. -/
structure PropEntry where
  schema : OASchema
  description : Option String

/-- The `{type: 'object', description, properties}` schema produced by
`resolveObjectSchema`. -/
structure ObjSchema where
  description : Option String
  properties : List (String × PropEntry)

/-- `resolveObjectSchema`: the declaration's own properties reduce into a
plain JavaScript object keyed by property name. -/
def resolveObjectSchema (doc : Option String) (props : List PropDecl) :
    ObjSchema :=
  { description := doc
    properties := props.foldl
      (fun acc prop =>
        jsRecordSet acc prop.name
          ⟨resolveNodeSchema prop.typeNode, prop.doc⟩) [] }

/-- The `$ref` path string used for component supertype references. -/
def refPath (typeName : String) : String :=
  "#/components/schemas/" ++ typeName

/-- A resolved component schema: the object schema alone, or an `allOf`
whose members are the supertype `$ref`s followed by the object schema. -/
inductive ComponentSchema where
  | plainObj (o : ObjSchema)
  | compAllOf (refs : List String) (selfSchema : ObjSchema)

/-- `resolveInterfaceComponent`: with supertypes (`getExtends()`), an
`allOf` of their `$ref`s followed by the own-property object schema;
without, the object schema alone. -/
def resolveInterfaceComponent (d : InterfaceDecl) : ComponentSchema :=
  let supertypes := d.extendsClauses
  let selfSchema := resolveObjectSchema d.doc d.props
  if supertypes.isEmpty then .plainObj selfSchema
  else .compAllOf (supertypes.map refPath) selfSchema

/-- `resolveClassComponent`: supertypes are `getImplements()` with the
`getExtends()` expression unshifted in front when present; otherwise as
for interfaces. -/
def resolveClassComponent (d : ClassDecl) : ComponentSchema :=
  let supertypes :=
    match d.extendsClause with
    | some ex => ex :: d.implementsClauses
    | none => d.implementsClauses
  let selfSchema := resolveObjectSchema d.doc d.props
  if supertypes.isEmpty then .plainObj selfSchema
  else .compAllOf (supertypes.map refPath) selfSchema

/-! ### Responses -/

/-- A `content` entry: the optional schema under a media type. -/
structure MediaTypeObject where
  schema : Option OASchema

/-- A response object: description from the JSDoc return tag, and the
`application/json` content. -/
structure ResponseObject where
  description : Option String
  content : List (String × MediaTypeObject)

/-- The fields of a request consulted by `resolveResponses`: the resolved
return type and the JSDoc `@returns` comment. -/
structure ORequest where
  res : Ty
  returnDoc : Option String

/-- `resolveResponses`: unconditionally a single `'200'` entry whose
`application/json` schema is `resolveTypeSchema(request.res)` (possibly
`undefined`, which JSON serialization later drops from the content
object — the `'200'` key itself always remains). -/
def resolveResponses (request : ORequest) : List (String × ResponseObject) :=
  [("200",
    { description := request.returnDoc
      content := [("application/json",
        { schema := resolveTypeSchema request.res })] })]

/-! ### Claim theorems about the OpenAPI writer -/

/-- C4 (amended): the `enum` set is the ordered list of member values, and
the `type` follows the first member's literal kind — `"string"` when the
first value is a string, `"number"` otherwise (in particular a mixed-kind
enum takes the first member's kind; there is no blanket string fallback). -/
theorem claim_C4_enum_first_member (e : EnumDecl) :
    (resolveEnumComponent e).enum = e.members.map EnumMember.value ∧
    (resolveEnumComponent e).description = e.doc ∧
    (∀ s rest, e.members.map EnumMember.value = .vstr s :: rest →
      (resolveEnumComponent e).type = "string") ∧
    (∀ v rest, e.members.map EnumMember.value = v :: rest →
      (∀ s, v ≠ .vstr s) → (resolveEnumComponent e).type = "number") ∧
    (e.members = [] → (resolveEnumComponent e).type = "number") := by
  refine ⟨rfl, rfl, ?_, ?_, ?_⟩
  · intro s rest hv
    unfold resolveEnumComponent
    rw [hv]
    rfl
  · intro v rest hv hne
    unfold resolveEnumComponent
    rw [hv]
    cases v with
    | vstr s => exact absurd rfl (hne s)
    | vnum n => rfl
    | vundef => rfl
  · intro hnil
    unfold resolveEnumComponent
    rw [hnil]
    rfl

/-- A mixed-kind enum whose first member is numeric: `enum E { A = 1,
B = 'b' }`. -/
def mixedEnumDecl : EnumDecl :=
  { name := "E", doc := none,
    members := [⟨"A", .vnum 1⟩, ⟨"B", .vstr "b"⟩] }

/-- Counterexample to C4 as stated: for the mixed-kind enum whose first
member is a number, the resolved `type` is `"number"`, not the claimed
`"string"` fallback. -/
theorem claim_C4_counterexample :
    (resolveEnumComponent mixedEnumDecl).type = "number" ∧
    (resolveEnumComponent mixedEnumDecl).type ≠ "string" ∧
    (resolveEnumComponent mixedEnumDecl).enum = [.vnum 1, .vstr "b"] := by
  refine ⟨rfl, by decide, rfl⟩

/-- A homogeneous string enum for the C4 witness. -/
def strEnumDecl : EnumDecl :=
  { name := "S", doc := none, members := [⟨"A", .vstr "a"⟩, ⟨"B", .vstr "b"⟩] }

/-- A homogeneous numeric enum for the C4 witness. -/
def numEnumDecl : EnumDecl :=
  { name := "N", doc := none, members := [⟨"A", .vnum 0⟩, ⟨"B", .vnum 1⟩] }

/-- Witness for C4 at concrete homogeneous enums: the string enum resolves
with type `"string"`, the numeric one with type `"number"`. -/
theorem claim_C4_witness :
    (resolveEnumComponent strEnumDecl).type = "string" ∧
    (resolveEnumComponent numEnumDecl).type = "number" :=
  ⟨(claim_C4_enum_first_member strEnumDecl).2.2.1 "a" [.vstr "b"] rfl,
    (claim_C4_enum_first_member numEnumDecl).2.2.2.1 (.vnum 0) [.vnum 1] rfl
      (fun s h => EnumValue.noConfusion h)⟩

/-- With distinct property names, the object-schema reduce maps each own
property to its node schema and doc text, in declaration order. -/
theorem resolveObjectSchema_props (doc : Option String) (props : List PropDecl)
    (h : (props.map PropDecl.name).Nodup) :
    resolveObjectSchema doc props =
      ⟨doc, props.map fun p =>
        (p.name, ⟨resolveNodeSchema p.typeNode, p.doc⟩)⟩ := by
  unfold resolveObjectSchema
  have hfold : props.foldl
      (fun acc prop => jsRecordSet acc prop.name
        ⟨resolveNodeSchema prop.typeNode, prop.doc⟩) [] =
      (props.map fun p =>
        (p.name, (⟨resolveNodeSchema p.typeNode, p.doc⟩ : PropEntry))).foldl
        (fun m kv => jsRecordSet m kv.1 kv.2) [] := by
    rw [List.foldl_map]
  rw [hfold, jsRecordSet_foldl _ [] (by simp) (by simpa [List.map_map, Function.comp] using h)]
  simp

/-- C5: for an interface or class with exactly one supertype, the
component schema is an `allOf` of exactly the supertype's `$ref` and the
own-property object schema; with no supertype it is the object schema
alone.  (Own properties only: `ts-morph`'s `getProperties()` on these
declaration nodes yields the declared members, never inherited ones.) -/
theorem claim_C5_single_supertype (di : InterfaceDecl) (dc : ClassDecl) :
    ((di.props.map PropDecl.name).Nodup →
      (∀ s, di.extendsClauses = [s] →
        resolveInterfaceComponent di = .compAllOf [refPath s]
          ⟨di.doc, di.props.map fun p =>
            (p.name, ⟨resolveNodeSchema p.typeNode, p.doc⟩)⟩) ∧
      (di.extendsClauses = [] →
        resolveInterfaceComponent di = .plainObj
          ⟨di.doc, di.props.map fun p =>
            (p.name, ⟨resolveNodeSchema p.typeNode, p.doc⟩)⟩)) ∧
    ((dc.props.map PropDecl.name).Nodup →
      (∀ s, dc.extendsClause = some s → dc.implementsClauses = [] →
        resolveClassComponent dc = .compAllOf [refPath s]
          ⟨dc.doc, dc.props.map fun p =>
            (p.name, ⟨resolveNodeSchema p.typeNode, p.doc⟩)⟩) ∧
      (∀ s, dc.extendsClause = none → dc.implementsClauses = [s] →
        resolveClassComponent dc = .compAllOf [refPath s]
          ⟨dc.doc, dc.props.map fun p =>
            (p.name, ⟨resolveNodeSchema p.typeNode, p.doc⟩)⟩) ∧
      (dc.extendsClause = none → dc.implementsClauses = [] →
        resolveClassComponent dc = .plainObj
          ⟨dc.doc, dc.props.map fun p =>
            (p.name, ⟨resolveNodeSchema p.typeNode, p.doc⟩)⟩)) := by
  constructor
  · intro hnodup
    constructor
    · intro s hext
      unfold resolveInterfaceComponent
      rw [hext, resolveObjectSchema_props di.doc di.props hnodup]
      rfl
    · intro hext
      unfold resolveInterfaceComponent
      rw [hext, resolveObjectSchema_props di.doc di.props hnodup]
      rfl
  · intro hnodup
    refine ⟨?_, ?_, ?_⟩
    · intro s hext himp
      unfold resolveClassComponent
      rw [hext, himp, resolveObjectSchema_props dc.doc dc.props hnodup]
      rfl
    · intro s hext himp
      unfold resolveClassComponent
      rw [hext, himp, resolveObjectSchema_props dc.doc dc.props hnodup]
      rfl
    · intro hext himp
      unfold resolveClassComponent
      rw [hext, himp, resolveObjectSchema_props dc.doc dc.props hnodup]
      rfl

/-- An interface with one supertype and one own property, for the C5
witness. -/
def c5Iface : InterfaceDecl :=
  { name := "Child", doc := none, extendsClauses := ["Base"],
    props := [⟨"own", none, .stringKeyword⟩] }

/-- A class with an extends clause and one own property, for the C5
witness. -/
def c5Class : ClassDecl :=
  { name := "ChildC", doc := none, extendsClause := some "BaseC",
    implementsClauses := [],
    props := [⟨"own", none, .numberKeyword⟩] }

/-- Witness for C5 at concrete one-supertype declarations: the interface
and class resolve to two-member `allOf`s of the supertype `$ref` and the
own-property object. -/
theorem claim_C5_witness :
    resolveInterfaceComponent c5Iface =
      .compAllOf ["#/components/schemas/Base"]
        ⟨none, [("own", ⟨.prim "string", none⟩)]⟩ ∧
    resolveClassComponent c5Class =
      .compAllOf ["#/components/schemas/BaseC"]
        ⟨none, [("own", ⟨.prim "number", none⟩)]⟩ :=
  ⟨((claim_C5_single_supertype c5Iface c5Class).1 (by decide)).1 "Base" rfl,
    ((claim_C5_single_supertype c5Iface c5Class).2 (by decide)).1 "BaseC" rfl rfl⟩

/-- C6 (amended): for every request the responses object has exactly the
`'200'` entry, whose `application/json` schema equals the resolver's
output for the return type; when resolution yields no schema only the
inner `schema` field is absent — the `'200'` entry itself is still
present. -/
theorem claim_C6_response_schema (request : ORequest) :
    (resolveResponses request).lookup "200" =
      some { description := request.returnDoc
             content := [("application/json",
               { schema := resolveTypeSchema request.res })] } ∧
    (resolveResponses request).length = 1 := by
  exact ⟨rfl, rfl⟩

/-- A request whose return type resolves to no schema. -/
def c6Request : ORequest := { res := .undefinedT, returnDoc := none }

/-- Counterexample to C6 as stated: resolution of the return type yields
no schema, yet the `'200'` response entry is present (only its inner
schema field is `undefined`). -/
theorem claim_C6_counterexample :
    resolveTypeSchema c6Request.res = none ∧
    (resolveResponses c6Request).lookup "200" =
      some { description := none
             content := [("application/json", { schema := none })] } :=
  ⟨rfl, rfl⟩

/-! ## Base-path argument resolution (`getLiteralPath` in
`src/parsers/nestjs.ts`)

`getLiteralPath` switches on the argument node's `SyntaxKind`.  Calls on
`undefined` (a missing `path` property) and `getLiteralText()` on a failed
`asKind` (a non-string array element) crash with a `TypeError`, which is a
different error from the thrown `Error('unknown argument type')`. -/

/-- The two failure modes of base-path resolution: the explicit
`Error('unknown argument type')` throw, and an uncontrolled `TypeError`
from dereferencing `undefined`. -/
inductive PathErr where
  | unknownArgument
  | typeError
deriving DecidableEq, Repr

/-- A decorator-argument node as `getLiteralPath` dispatches on it: a
string literal, an array literal, an object literal (carrying the node
`getProperty('path')` returns, when any), a property assignment (with its
initializer), or any other kind. -/
inductive ArgNode where
  | stringLiteral (s : String)
  | arrayLiteral (elements : List ArgNode)
  | objectLiteral (pathProp : Option ArgNode)
  | propertyAssignment (initializer : ArgNode)
  | otherKind

/-- The array branch's `elements.map(e =>
e.asKind(SyntaxKind.StringLiteral).getLiteralText())`: a non-string
element makes `asKind` return `undefined` and the `getLiteralText` call
crash. -/
def literalTexts : List ArgNode → Except PathErr (List String)
  | [] => .ok []
  | e :: rest =>
    match e with
    | .stringLiteral s => (literalTexts rest).map fun l => s :: l
    | _ => .error .typeError

/-- `getLiteralPath(node, allowObject?)`: a string literal yields its text;
an array of string literals joins with `'/'`; an object literal throws
`'unknown argument type'` unless objects are allowed, in which case the
`path` property is resolved recursively (with objects no longer allowed);
a property assignment recurses into its initializer; every other kind
throws `'unknown argument type'`.  A missing `path` property crashes with
a `TypeError` (`getLiteralPath(undefined)` calls `undefined.getKind()`). -/
def getLiteralPath : ArgNode → Bool → Except PathErr String
  | .stringLiteral s, _ => .ok s
  | .arrayLiteral es, _ => (literalTexts es).map (String.intercalate "/")
  | .objectLiteral pathProp, allowObject =>
    if !allowObject then .error .unknownArgument
    else
      match pathProp with
      | none => .error .typeError
      | some p => getLiteralPath p false
  | .propertyAssignment init, _ => getLiteralPath init false
  | .otherKind, _ => .error .unknownArgument

/-- `getBaseUrl` (controller level): the empty string without arguments,
otherwise `getLiteralPath(args[0], true)`. -/
def getBaseUrl (args : List ArgNode) : Except PathErr String :=
  match args with
  | [] => .ok ""
  | a :: _ => getLiteralPath a true

/-- `getUrl` (method level): the empty string without arguments, otherwise
`getLiteralPath(args[0])` with objects not allowed. -/
def getUrl (args : List ArgNode) : Except PathErr String :=
  match args with
  | [] => .ok ""
  | a :: _ => getLiteralPath a false

/-- `literalTexts` on a list of string literals succeeds with the texts. -/
theorem literalTexts_all_strings (ss : List String) :
    literalTexts (ss.map ArgNode.stringLiteral) = .ok ss := by
  induction ss with
  | nil => rfl
  | cons s rest ih =>
    show (literalTexts (rest.map ArgNode.stringLiteral)).map
      (fun l => s :: l) = .ok (s :: rest)
    rw [ih]
    rfl

/-- `literalTexts` crashes with a `TypeError` whenever some element is
not a string literal. -/
theorem literalTexts_nonstring (es : List ArgNode)
    (h : ∃ e ∈ es, ∀ t, e ≠ ArgNode.stringLiteral t) :
    literalTexts es = .error .typeError := by
  induction es with
  | nil => simp at h
  | cons e rest ih =>
    obtain ⟨e2, he2, hne⟩ := h
    rcases List.mem_cons.mp he2 with rfl | hmem
    · cases e2 with
      | stringLiteral t => exact absurd rfl (hne t)
      | arrayLiteral l => rfl
      | objectLiteral p => rfl
      | propertyAssignment i => rfl
      | otherKind => rfl
    · cases e with
      | stringLiteral s =>
        show (literalTexts rest).map (fun l => s :: l) = .error .typeError
        rw [ih ⟨e2, hmem, hne⟩]
        rfl
      | arrayLiteral l => rfl
      | objectLiteral p => rfl
      | propertyAssignment i => rfl
      | otherKind => rfl

/-- C8 (amended): base-path resolution returns the literal text of a
string argument, the `'/'`-join of an array of string literals, and — at
controller level only — the recursively resolved `path` field of an object
literal; an object literal at method level and every unrecognized node
kind raise the fatal `'unknown argument type'` error; but an array
containing a non-string-literal element, and an object literal without a
`path` property assignment, crash with a `TypeError` rather than raising
that message. -/
theorem claim_C8_base_path (s : String) (ss : List String)
    (x : Option ArgNode) (es : List ArgNode) :
    (getBaseUrl [ArgNode.stringLiteral s] = .ok s ∧
      getUrl [ArgNode.stringLiteral s] = .ok s) ∧
    (getBaseUrl [ArgNode.arrayLiteral (ss.map ArgNode.stringLiteral)] =
      .ok (String.intercalate "/" ss) ∧
     getUrl [ArgNode.arrayLiteral (ss.map ArgNode.stringLiteral)] =
      .ok (String.intercalate "/" ss)) ∧
    (getBaseUrl [ArgNode.objectLiteral
        (some (ArgNode.propertyAssignment (ArgNode.stringLiteral s)))] =
      .ok s) ∧
    (getUrl [ArgNode.objectLiteral x] = .error .unknownArgument) ∧
    (getBaseUrl [ArgNode.otherKind] = .error .unknownArgument ∧
      getUrl [ArgNode.otherKind] = .error .unknownArgument) ∧
    ((∃ e ∈ es, ∀ t, e ≠ ArgNode.stringLiteral t) →
      getBaseUrl [ArgNode.arrayLiteral es] = .error .typeError) ∧
    (getBaseUrl [ArgNode.objectLiteral none] = .error .typeError) := by
  refine ⟨⟨rfl, rfl⟩, ?_, rfl, ?_, ⟨rfl, rfl⟩, ?_, rfl⟩
  case refine_2 => rcases x with _ | p <;> rfl
  · constructor
    · show (literalTexts (ss.map ArgNode.stringLiteral)).map
        (String.intercalate "/") = .ok (String.intercalate "/" ss)
      rw [literalTexts_all_strings]
      rfl
    · show (literalTexts (ss.map ArgNode.stringLiteral)).map
        (String.intercalate "/") = .ok (String.intercalate "/" ss)
      rw [literalTexts_all_strings]
      rfl
  · intro h
    show (literalTexts es).map (String.intercalate "/") = .error .typeError
    rw [literalTexts_nonstring es h]
    rfl

/-- Counterexample to C8 as stated: an array argument containing a
non-string element is "another argument shape", but the run aborts with a
`TypeError` (from `asKind(...).getLiteralText()` on `undefined`), not with
the `'unknown argument type'` error the claim promises. -/
theorem claim_C8_counterexample :
    getBaseUrl [ArgNode.arrayLiteral [ArgNode.otherKind]] =
      .error .typeError ∧
    PathErr.typeError ≠ PathErr.unknownArgument :=
  ⟨rfl, by decide⟩

/-- Witness for C8 at concrete arguments: a string literal resolves to its
text, and an array with a non-string element crashes with a `TypeError`. -/
theorem claim_C8_witness :
    getBaseUrl [ArgNode.stringLiteral "users"] = .ok "users" ∧
    getBaseUrl [ArgNode.arrayLiteral [ArgNode.otherKind]] =
      .error .typeError :=
  ⟨(claim_C8_base_path "users" [] none []).1.1,
    (claim_C8_base_path "users" [] none [ArgNode.otherKind]).2.2.2.2.2.1
      ⟨ArgNode.otherKind, by simp, fun t h => ArgNode.noConfusion h⟩⟩

end Node2API
